import Mathlib

/-!
Shallow embedding of the QuantCrypto Engine trade-simulation core
(`Framework/backtester.py`).  Prices, sizes and timestamps are modelled
as rationals (the Python code uses IEEE doubles; every claim checked
here is an algebraic identity or an ordering fact, stated over exact
arithmetic as the design notes of the spec request).  `None`/`NaN`
optional enrichment values are both modelled as `Option.none`, matching
the code's uniform `pd.isna` treatment.
-/

namespace QuantCrypto

/-- Trade direction, the code's `"long"` / `"short"` strings. -/
inductive Direction
  | long
  | short
deriving DecidableEq

/-- `dir_factor = 1 if direction == "long" else -1` (backtester.py 269, 303). -/
def dir_factor : Direction → ℚ
  | .long => 1
  | .short => -1

/-- One merged bar: a row of the left-joined price/signal frame as seen by
the loop in `Backtester.run` (backtester.py 74-77).  A column that is absent
from the frame, or null on this row, is `none`. -/
structure Row where
  datetime : ℚ
  open_ : ℚ
  high : ℚ
  low : ℚ
  close : ℚ
  signal : Int
  stop_price : Option ℚ
  take_price : Option ℚ
  size : Option ℚ
  risk : Option ℚ
  trailing_distance : Option ℚ
  volume : Option ℚ
deriving DecidableEq

/-- The per-trade dictionary built by `Backtester._open_trade_from_row`
(backtester.py 273-294) and mutated by the bar loop and `_close_trade`. -/
structure Trade where
  id : Nat
  direction : Direction
  entry_time : ℚ
  entry_bar_index : Nat
  entry_price : ℚ
  size : ℚ
  stop_price : Option ℚ
  take_price : Option ℚ
  trailing_distance : Option ℚ
  risk : Option ℚ
  max_favor : ℚ
  max_adverse : ℚ
  volume_at_entry : Option ℚ
  exit_time : Option ℚ
  exit_bar_index : Option Nat
  exit_price : Option ℚ
  pnl : Option ℚ
  commission_open : ℚ
  commission_close : ℚ
  exit_reason : Option String
deriving DecidableEq

/-- The configuration options read in `Backtester.__init__`
(backtester.py 32-36); `initial_capital` is read but unused by the run. -/
structure Config where
  single_position_mode : Bool := true
  commission_perc : ℚ := 0
  slippage : ℚ := 0

/-- `Backtester._close_trade` (backtester.py 300-318): apply exit slippage
against the trade's direction, charge the close commission on the realized
notional, and record gross minus both commissions as `pnl`. -/
def close_trade (cfg : Config) (t : Trade) (exit_price : ℚ) (exit_time : ℚ)
    (exit_bar_index : Nat) (exit_reason : String) : Trade :=
  let df := dir_factor t.direction
  let px := exit_price * (1 - df * cfg.slippage)
  let commission_close := cfg.commission_perc * px * t.size
  let gross_pnl := (px - t.entry_price) * t.size * df
  let net_pnl := gross_pnl - t.commission_open - commission_close
  { t with
      exit_time := some exit_time
      exit_bar_index := some exit_bar_index
      exit_price := some px
      commission_close := commission_close
      pnl := some net_pnl
      exit_reason := some exit_reason }

/-- `Backtester._open_trade_from_row` (backtester.py 239-295).  The row-level
`None`/`NaN` cleaning of lines 256-263 is absorbed by the `Option` fields;
`risk`, when absent, is inferred from the stop using the raw signal `price`
(the bar close, before slippage), exactly as line 267 does. -/
def open_trade_from_row (cfg : Config) (trade_id : Nat) (dt : ℚ) (price : ℚ)
    (row : Row) (bar_index : Nat) : Option Trade :=
  if row.signal = 0 then none else
  let direction := if row.signal > 0 then Direction.long else Direction.short
  let size := row.size.getD 1
  let risk : Option ℚ :=
    match row.risk, row.stop_price with
    | none, some sp => some (|price - sp| * size)
    | r, _ => r
  let df := dir_factor direction
  let entry_px := price * (1 + df * cfg.slippage)
  let commission_open := cfg.commission_perc * entry_px * size
  some
    { id := trade_id
      direction := direction
      entry_time := dt
      entry_bar_index := bar_index
      entry_price := entry_px
      size := size
      stop_price := row.stop_price
      take_price := row.take_price
      trailing_distance := row.trailing_distance
      risk := risk
      max_favor := 0
      max_adverse := 0
      volume_at_entry := row.volume
      exit_time := none
      exit_bar_index := none
      exit_price := none
      pnl := none
      commission_open := commission_open
      commission_close := 0
      exit_reason := none }

/-- Step 1 of the bar loop for one open trade (backtester.py 88-116):
widen MFE/MAE from the bar's high/low, then ratchet the trailing stop from
the bar's close.  The two mutations are merged into a single record update;
the computed values agree field by field with the Python statements. -/
def lifecycle_update (h l c : ℚ) (t : Trade) : Trade :=
  let best_pnl := if t.direction = .long then (h - t.entry_price) * t.size
                  else (t.entry_price - l) * t.size
  let worst_pnl := if t.direction = .long then (l - t.entry_price) * t.size
                   else (t.entry_price - h) * t.size
  let new_sp : Option ℚ :=
    match t.trailing_distance with
    | none => t.stop_price
    | some dist =>
        if t.direction = .long then
          match t.stop_price with
          | none => some (c - dist)
          | some sp => some (max sp (c - dist))
        else
          match t.stop_price with
          | none => some (c + dist)
          | some sp => some (min sp (c + dist))
  { t with
      max_favor := max t.max_favor best_pnl
      max_adverse := min t.max_adverse worst_pnl
      stop_price := new_sp }

/-- `hit_sl` of backtester.py 122-134: the stop triggers from the bar's
low (long) or high (short), and only when a stop price is present. -/
def hit_sl (h l : ℚ) (t : Trade) : Bool :=
  match t.stop_price with
  | some sp => if t.direction = .long then decide (l ≤ sp) else decide (h ≥ sp)
  | none => false

/-- `hit_tp` of backtester.py 122-134: the target triggers from the bar's
high (long) or low (short), and only when a take price is present. -/
def hit_tp (h l : ℚ) (t : Trade) : Bool :=
  match t.take_price with
  | some tp => if t.direction = .long then decide (h ≥ tp) else decide (l ≤ tp)
  | none => false

/-- The exit decision of backtester.py 136-142: when either level is hit the
trade exits, and a simultaneous stop hit takes priority over the target. -/
def check_exit (h l : ℚ) (t : Trade) : Option (ℚ × String) :=
  if hit_sl h l t then
    match t.stop_price with
    | some sp => some (sp, "sl")
    | none => none
  else if hit_tp h l t then
    match t.take_price with
    | some tp => some (tp, "tp")
    | none => none
  else none

/-- Step 1 of the bar loop over the whole open list (backtester.py 82-153):
each open trade is updated, then either closed by stop/target (appended in
order to the newly-closed list) or kept, preserving order. -/
def step1 (cfg : Config) (dt : ℚ) (bar_index : Nat) (h l c : ℚ) :
    List Trade → List Trade × List Trade
  | [] => ([], [])
  | t :: ts =>
      let u := lifecycle_update h l c t
      let rest := step1 cfg dt bar_index h l c ts
      match check_exit h l u with
      | some pr => (rest.1, close_trade cfg u pr.1 dt bar_index pr.2 :: rest.2)
      | none => (u :: rest.1, rest.2)

/-- The running state of `Backtester.run`: the open list, the closed list
and the next trade id (backtester.py 67-69). -/
structure BTState where
  open_trades : List Trade
  closed_trades : List Trade
  trade_id : Nat

/-- One iteration of the candle loop (backtester.py 74-190): stop/target
processing, then signal-forced closure and re-entry in single-position
mode, or an additive open otherwise. -/
def process_bar (cfg : Config) (st : BTState) (bar_index : Nat) (bar : Row) :
    BTState :=
  let res := step1 cfg bar.datetime bar_index bar.high bar.low bar.close st.open_trades
  let still_open := res.1
  let closed := st.closed_trades ++ res.2
  if cfg.single_position_mode ∧ bar.signal ≠ 0 ∧ still_open ≠ [] then
    let closed2 := closed ++ still_open.map
      (fun t => close_trade cfg t bar.close bar.datetime bar_index "signal")
    match open_trade_from_row cfg st.trade_id bar.datetime bar.close bar bar_index with
    | some nt => ⟨[nt], closed2, st.trade_id + 1⟩
    | none => ⟨[], closed2, st.trade_id⟩
  else
    if bar.signal ≠ 0 then
      if cfg.single_position_mode ∧ still_open ≠ [] then
        ⟨still_open, closed, st.trade_id⟩
      else
        match open_trade_from_row cfg st.trade_id bar.datetime bar.close bar bar_index with
        | some nt => ⟨still_open ++ [nt], closed, st.trade_id + 1⟩
        | none => ⟨still_open, closed, st.trade_id⟩
    else ⟨still_open, closed, st.trade_id⟩

/-- The candle loop of `Backtester.run`, indexed from `i`. -/
def run_loop (cfg : Config) : Nat → BTState → List Row → BTState
  | _, st, [] => st
  | i, st, bar :: rest => run_loop cfg (i + 1) (process_bar cfg st i bar) rest

/-- The state before the first bar: no trades, ids from 0. -/
def initState : BTState := ⟨[], [], 0⟩

/-- `Backtester.run` on the merged bar sequence (backtester.py 74-209):
run the candle loop, then force-close whatever is still open at the last
bar's close with reason `"eod"`, and return the closed-trade ledger. -/
def run (cfg : Config) (bars : List Row) : List Trade :=
  let st := run_loop cfg 0 initState bars
  if st.open_trades = [] then st.closed_trades
  else
    match bars.getLast? with
    | some last =>
        st.closed_trades ++ st.open_trades.map
          (fun t => close_trade cfg t last.close last.datetime (bars.length - 1) "eod")
    | none => st.closed_trades



/-- The pandas exceptions the backtester can raise on malformed input: a KeyError from column assignment in `__init__` (backtester.py 30) and an AttributeError from a missing namedtuple field in the bar loop (backtester.py 76). -/
inductive PdError
  | keyError (col : String)
  | attributeError (field : String)
deriving DecidableEq

/-- One row of the signal DataFrame passed to `Backtester.run`; a column absent from the whole series, or null on this row, is `none`. -/
structure SigRow where
  datetime : ℚ
  signal : Int
  stop_price : Option ℚ
  take_price : Option ℚ
  size : Option ℚ
  risk : Option ℚ
  trailing_distance : Option ℚ
  volume : Option ℚ
deriving DecidableEq

/-- A price DataFrame as `Backtester.__init__` receives it: a set of column names plus one value row per bar.  Row access is total; `cols` records which columns actually exist, so reading an absent column is what fails. -/
structure RawFrame where
  cols : List String
  rows : List (String → ℚ)

/-- `Backtester.__init__` (backtester.py 28-36): `self.df["datetime"] = pd.to_datetime(self.df["datetime"])` raises a KeyError when the timestamp column is missing; no other column is touched at construction. -/
def bt_init (df : RawFrame) : Except PdError RawFrame :=
  if "datetime" ∈ df.cols then Except.ok df
  else Except.error (PdError.keyError "datetime")

/-- Field access on a merged-row namedtuple (`row.open`, `row.high`, ... in backtester.py 76): an absent column means the attribute does not exist, an AttributeError. -/
def getVal (df : RawFrame) (r : String → ℚ) (field : String) : Except PdError ℚ :=
  if field ∈ df.cols then Except.ok (r field)
  else Except.error (PdError.attributeError field)

/-- Builds one merged bar from a price row (backtester.py 49-65): left join on the timestamp, signal defaulting to 0, enrichment fields absent when unmatched; the OHLC fields are read from the price frame and fail when their column is missing.  `volume` is read with a `getattr` default, so its absence is not an error. -/
def mergeRow (df : RawFrame) (signals : List SigRow) (r : String → ℚ) :
    Except PdError Row := do
  let d := r "datetime"
  let o ← getVal df r "open"
  let h ← getVal df r "high"
  let l ← getVal df r "low"
  let c ← getVal df r "close"
  let m := signals.find? (fun s => decide (s.datetime = d))
  Except.ok
    { datetime := d, open_ := o, high := h, low := l, close := c,
      signal := (m.map SigRow.signal).getD 0,
      stop_price := m.bind SigRow.stop_price,
      take_price := m.bind SigRow.take_price,
      size := m.bind SigRow.size,
      risk := m.bind SigRow.risk,
      trailing_distance := m.bind SigRow.trailing_distance,
      volume := if "volume" ∈ df.cols then some (r "volume") else m.bind SigRow.volume }

/-- Error-propagating map: the first failing row aborts the whole run, as the uncaught exception does in Python. -/
def mapExcept (f : α → Except ε β) : List α → Except ε (List β)
  | [] => Except.ok []
  | a :: l => do
      let b ← f a
      let bs ← mapExcept f l
      Except.ok (b :: bs)

/-- `Backtester.run` on a raw frame (backtester.py 41-234).  An empty signal series returns an empty ledger before anything is read.  Column presence is a frame-level fact, so the first OHLC access of the bar loop (bar 0) fails exactly when extracting all bars fails; hoisting the extraction in front of the pure loop therefore preserves the `Except` result. -/
def run_raw (cfg : Config) (df : RawFrame) (signals : List SigRow) :
    Except PdError (List Trade) :=
  if signals.isEmpty then Except.ok []
  else do
    let bars ← mapExcept (mergeRow df signals) df.rows
    Except.ok (run cfg bars)

/-- Constructing the `Backtester` and then calling `run`, the whole simulation as the spec sees it. -/
def simulate (cfg : Config) (df : RawFrame) (signals : List SigRow) :
    Except PdError (List Trade) := do
  let d ← bt_init df
  run_raw cfg d signals

/-- The first of the four OHLC columns missing from the frame, in the order the
bar loop reads them — `row.open, row.high, row.low, row.close` (backtester.py 76);
`none` when all four are present.  The AttributeError that aborts a run names
exactly this field. -/
def firstMissingOhlc (df : RawFrame) : Option String :=
  if "open" ∈ df.cols then
    if "high" ∈ df.cols then
      if "low" ∈ df.cols then
        if "close" ∈ df.cols then none else some "close"
      else some "low"
    else some "high"
  else some "open"

/-- Gross P&L as the spec words it: `(exit − entry) × size` for a long trade, `(entry − exit) × size` for a short trade. -/
def claimed_gross (d : Direction) (entry exitp size : ℚ) : ℚ :=
  if d = .long then (exitp - entry) * size else (entry - exitp) * size

/-- A trade record whose stored `pnl` reconciles exactly with its stored prices, size and commissions. -/
def PnlOk (t : Trade) : Prop := ∃ ep, t.exit_price = some ep ∧
  t.pnl = some (claimed_gross t.direction t.entry_price ep t.size -
    t.commission_open - t.commission_close)

/-- The excursion sign invariant: MFE is never negative, MAE never positive. -/
def ExcOk (t : Trade) : Prop := 0 ≤ t.max_favor ∧ t.max_adverse ≤ 0

/-- The excursion invariant over a whole backtester state. -/
def StExc (st : BTState) : Prop :=
  (∀ t ∈ st.open_trades, ExcOk t) ∧ (∀ t ∈ st.closed_trades, ExcOk t)

/-- What holds of every open trade when the loop is about to process bar `k`: it was opened on an earlier bar, and if it was opened on the immediately preceding bar it has never been lifecycle-updated (its excursions are still the initial zeros). -/
def OpenBarInv (k : Nat) (t : Trade) : Prop :=
  t.entry_bar_index < k ∧
  (t.entry_bar_index + 1 = k → t.max_favor = 0 ∧ t.max_adverse = 0)

/-- Every trade closed inside the bar loop left on a bar strictly after its entry bar. -/
def ClosedBarInv (t : Trade) : Prop :=
  ∃ j, t.exit_bar_index = some j ∧ t.entry_bar_index < j

/-- The bar-index invariant over a whole backtester state, relative to the next bar index `k`. -/
def StBar (k : Nat) (st : BTState) : Prop :=
  (∀ t ∈ st.open_trades, OpenBarInv k t) ∧ (∀ t ∈ st.closed_trades, ClosedBarInv t)

/-- How many trades in a list carry the id `k`. -/
def idCount (k : Nat) (l : List Trade) : Nat := l.countP (fun t => t.id == k)

/-- The id-accounting invariant: across the closed and open lists together, every id below the next-id counter occurs exactly once and no other id occurs. -/
def StId (st : BTState) : Prop :=
  ∀ k, idCount k (st.closed_trades ++ st.open_trades) =
    if k < st.trade_id then 1 else 0

/-- The lifecycle update applied over a sequence of bars, each given as (high, low, close) — the evolution of one trade that stays open across those bars. -/
def update_seq (bs : List (ℚ × ℚ × ℚ)) (t : Trade) : Trade :=
  bs.foldl (fun u b => lifecycle_update b.1 b.2.1 b.2.2 u) t

/-- Default configuration: single-position mode, no commission, no slippage. -/
def demoCfg : Config := {}

/-- A bar at price 100 carrying a long entry signal. -/
def demoRow0 : Row :=
  { datetime := 0, open_ := 100, high := 100, low := 100, close := 100,
    signal := 1, stop_price := none, take_price := none, size := none,
    risk := none, trailing_distance := none, volume := none }

/-- A signal-free bar at price 110. -/
def demoRow1 : Row :=
  { datetime := 1, open_ := 110, high := 110, low := 110, close := 110,
    signal := 0, stop_price := none, take_price := none, size := none,
    risk := none, trailing_distance := none, volume := none }

/-- A two-bar series: enter long at 100, drift to 110, forced closure at the end. -/
def demoBars : List Row := [demoRow0, demoRow1]

/-- A long trade holding both a stop at 95 and a target at 105. -/
def tDemo : Trade :=
  { id := 0, direction := .long, entry_time := 0, entry_bar_index := 0,
    entry_price := 100, size := 1, stop_price := some 95, take_price := some 105,
    trailing_distance := none, risk := none, max_favor := 0, max_adverse := 0,
    volume_at_entry := none, exit_time := none, exit_bar_index := none,
    exit_price := none, pnl := none, commission_open := 0,
    commission_close := 0, exit_reason := none }

/-- A long trade with a trailing distance of 2 and no stop price yet. -/
def tTrailN : Trade :=
  { id := 3, direction := .long, entry_time := 0, entry_bar_index := 0,
    entry_price := 100, size := 1, stop_price := none, take_price := none,
    trailing_distance := some 2, risk := none, max_favor := 0, max_adverse := 0,
    volume_at_entry := none, exit_time := none, exit_bar_index := none,
    exit_price := none, pnl := none, commission_open := 0,
    commission_close := 0, exit_reason := none }

/-- A configuration with 10 percent slippage and no commission. -/
def cexCfg : Config := { single_position_mode := true, commission_perc := 0, slippage := 1/10 }

/-- A long-signal bar at close 100 with a stop at 95 and no explicit risk. -/
def cexRow : Row :=
  { datetime := 0, open_ := 100, high := 100, low := 100, close := 100,
    signal := 1, stop_price := some 95, take_price := none, size := none,
    risk := none, trailing_distance := none, volume := none }

/-- The commission and slippage of scenario D of the spec: 0.001 and 0.0005. -/
def scenCfg : Config :=
  { single_position_mode := true, commission_perc := 1/1000, slippage := 1/2000 }

/-- A long-signal bar at close 100 with no enrichment fields. -/
def scenRow : Row :=
  { datetime := 0, open_ := 100, high := 100, low := 100, close := 100,
    signal := 1, stop_price := none, take_price := none, size := none,
    risk := none, trailing_distance := none, volume := none }

/-- A one-row price frame that has a timestamp column but none of the OHLC columns. -/
def noOhlcFrame : RawFrame := { cols := ["datetime"], rows := [fun _ => 0] }

/-- A one-row price frame that has the timestamp, open, high and low columns but no close column. -/
def noCloseFrame : RawFrame :=
  { cols := ["datetime", "open", "high", "low"], rows := [fun _ => 0] }

/-- A price frame with no columns at all. -/
def emptyFrame : RawFrame := { cols := [], rows := [] }

/-- A single long entry signal at timestamp 0. -/
def sigDemo : SigRow :=
  { datetime := 0, signal := 1, stop_price := none, take_price := none,
    size := none, risk := none, trailing_distance := none, volume := none }

theorem open_trade_eq (cfg : Config) (tid : Nat) (dt price : ℚ) (row : Row)
    (bi : Nat) (h0 : row.signal ≠ 0) :
    open_trade_from_row cfg tid dt price row bi = some
      { id := tid
        direction := if row.signal > 0 then Direction.long else Direction.short
        entry_time := dt
        entry_bar_index := bi
        entry_price := price * (1 + dir_factor (if row.signal > 0 then Direction.long else Direction.short) * cfg.slippage)
        size := row.size.getD 1
        stop_price := row.stop_price
        take_price := row.take_price
        trailing_distance := row.trailing_distance
        risk := match row.risk, row.stop_price with
          | none, some sp => some (|price - sp| * row.size.getD 1)
          | r, _ => r
        max_favor := 0
        max_adverse := 0
        volume_at_entry := row.volume
        exit_time := none
        exit_bar_index := none
        exit_price := none
        pnl := none
        commission_open := cfg.commission_perc * (price * (1 + dir_factor (if row.signal > 0 then Direction.long else Direction.short) * cfg.slippage)) * (row.size.getD 1)
        commission_close := 0
        exit_reason := none } := by
  simp [open_trade_from_row, h0]

@[simp] theorem lifecycle_update_direction (h l c : ℚ) (t : Trade) :
    (lifecycle_update h l c t).direction = t.direction := rfl

@[simp] theorem lifecycle_update_trailing (h l c : ℚ) (t : Trade) :
    (lifecycle_update h l c t).trailing_distance = t.trailing_distance := rfl

@[simp] theorem lifecycle_update_id (h l c : ℚ) (t : Trade) :
    (lifecycle_update h l c t).id = t.id := rfl

@[simp] theorem lifecycle_update_entry_bar (h l c : ℚ) (t : Trade) :
    (lifecycle_update h l c t).entry_bar_index = t.entry_bar_index := rfl

theorem lifecycle_update_stop_init (h l c : ℚ) (t : Trade) (d : ℚ)
    (hd : t.trailing_distance = some d) (hsp : t.stop_price = none) :
    (lifecycle_update h l c t).stop_price =
      some (if t.direction = .long then c - d else c + d) := by
  by_cases hdir : t.direction = .long <;>
    simp [lifecycle_update, hd, hsp, hdir]

theorem lifecycle_update_stop_step (h l c : ℚ) (t : Trade) (d sp : ℚ)
    (hd : t.trailing_distance = some d) (hsp : t.stop_price = some sp) :
    (lifecycle_update h l c t).stop_price =
      some (if t.direction = .long then max sp (c - d) else min sp (c + d)) := by
  by_cases hdir : t.direction = .long <;>
    simp [lifecycle_update, hd, hsp, hdir]

@[simp] theorem close_trade_id (cfg : Config) (t : Trade) (px dtx : ℚ) (bix : Nat) (r : String) :
    (close_trade cfg t px dtx bix r).id = t.id := rfl

@[simp] theorem close_trade_entry_bar (cfg : Config) (t : Trade) (px dtx : ℚ) (bix : Nat) (r : String) :
    (close_trade cfg t px dtx bix r).entry_bar_index = t.entry_bar_index := rfl

@[simp] theorem close_trade_max_favor (cfg : Config) (t : Trade) (px dtx : ℚ) (bix : Nat) (r : String) :
    (close_trade cfg t px dtx bix r).max_favor = t.max_favor := rfl

@[simp] theorem close_trade_max_adverse (cfg : Config) (t : Trade) (px dtx : ℚ) (bix : Nat) (r : String) :
    (close_trade cfg t px dtx bix r).max_adverse = t.max_adverse := rfl

@[simp] theorem close_trade_exit_bar (cfg : Config) (t : Trade) (px dtx : ℚ) (bix : Nat) (r : String) :
    (close_trade cfg t px dtx bix r).exit_bar_index = some bix := rfl

@[simp] theorem close_trade_exit_reason (cfg : Config) (t : Trade) (px dtx : ℚ) (bix : Nat) (r : String) :
    (close_trade cfg t px dtx bix r).exit_reason = some r := rfl

theorem open_trade_some_fields (cfg : Config) (tid : Nat) (dt price : ℚ) (row : Row)
    (bi : Nat) (t : Trade) (h : open_trade_from_row cfg tid dt price row bi = some t) :
    t.id = tid ∧ t.entry_bar_index = bi ∧ t.max_favor = 0 ∧ t.max_adverse = 0 := by
  by_cases hsig : row.signal = 0
  · simp [open_trade_from_row, hsig] at h
  · rw [open_trade_eq cfg tid dt price row bi hsig] at h
    obtain rfl := Option.some_injective _ h.symm
    exact ⟨rfl, rfl, rfl, rfl⟩

theorem open_trade_from_row_ne_none (cfg : Config) (tid : Nat) (dt price : ℚ)
    (row : Row) (bi : Nat) (h0 : row.signal ≠ 0) :
    open_trade_from_row cfg tid dt price row bi ≠ none := by
  rw [open_trade_eq cfg tid dt price row bi h0]
  exact Option.some_ne_none _

theorem update_seq_stop_mono (bs : List (ℚ × ℚ × ℚ)) :
    ∀ (t : Trade) (d sp : ℚ), t.trailing_distance = some d → t.stop_price = some sp →
      ∃ sq, (update_seq bs t).stop_price = some sq ∧
        (t.direction = .long → sp ≤ sq) ∧ (t.direction = .short → sq ≤ sp) := by
  induction bs with
  | nil => intro t d sp _ hsp
           exact ⟨sp, hsp, fun _ => le_refl sp, fun _ => le_refl sp⟩
  | cons b bs ih =>
      intro t d sp hd hsp
      by_cases hdir : t.direction = .long
      · have hstep := lifecycle_update_stop_step b.1 b.2.1 b.2.2 t d sp hd hsp
        rw [if_pos hdir] at hstep
        obtain ⟨sq, hsq, hmono, _⟩ := ih (lifecycle_update b.1 b.2.1 b.2.2 t) d
          (max sp (b.2.2 - d)) (by simp [hd]) hstep
        refine ⟨sq, hsq, fun _ => ?_, fun hshort => ?_⟩
        · exact le_trans (le_max_left _ _) (hmono (by simp [hdir]))
        · rw [hdir] at hshort; exact absurd hshort (by simp)
      · have hdir2 : t.direction = .short := by
          cases hh : t.direction
          · exact absurd hh hdir
          · rfl
        have hstep := lifecycle_update_stop_step b.1 b.2.1 b.2.2 t d sp hd hsp
        rw [if_neg hdir] at hstep
        obtain ⟨sq, hsq, _, hmono⟩ := ih (lifecycle_update b.1 b.2.1 b.2.2 t) d
          (min sp (b.2.2 + d)) (by simp [hd]) hstep
        refine ⟨sq, hsq, fun hlong => ?_, fun _ => ?_⟩
        · rw [hdir2] at hlong; exact absurd hlong (by simp)
        · exact le_trans (hmono (by simp [hdir2])) (min_le_left _ _)

theorem hit_sl_stop_some (h l : ℚ) (t : Trade) (hsl : hit_sl h l t = true) :
    ∃ sp, t.stop_price = some sp := by
  unfold hit_sl at hsl
  cases hs : t.stop_price with
  | none => rw [hs] at hsl; exact absurd hsl (by simp)
  | some sp => exact ⟨sp, rfl⟩

theorem check_exit_sl_priority (h l : ℚ) (t : Trade)
    (hsl : hit_sl h l t = true) :
    ∃ sp, t.stop_price = some sp ∧ check_exit h l t = some (sp, "sl") := by
  obtain ⟨sp, hs⟩ := hit_sl_stop_some h l t hsl
  exact ⟨sp, hs, by simp [check_exit, hsl, hs]⟩

theorem step1_closes_mem (cfg : Config) (dt : ℚ) (bi : Nat) (h l c : ℚ)
    (ts : List Trade) (t : Trade) (hmem : t ∈ ts) (px : ℚ) (r : String)
    (hx : check_exit h l (lifecycle_update h l c t) = some (px, r)) :
    close_trade cfg (lifecycle_update h l c t) px dt bi r ∈
      (step1 cfg dt bi h l c ts).2 := by
  induction ts with
  | nil => cases hmem
  | cons a ts ih =>
      rcases List.mem_cons.mp hmem with hEq | hTail
      · subst hEq
        simp only [step1, hx]
        exact List.mem_cons_self _ _
      · have hrec := ih hTail
        simp only [step1]
        cases hx2 : check_exit h l (lifecycle_update h l c a) with
        | none => simpa using hrec
        | some pr => simpa using List.mem_cons_of_mem _ hrec

theorem step1_mem_fst (cfg : Config) (dt : ℚ) (bi : Nat) (h l c : ℚ)
    (ts : List Trade) :
    ∀ t ∈ (step1 cfg dt bi h l c ts).1, ∃ u ∈ ts, t = lifecycle_update h l c u := by
  induction ts with
  | nil => intro t ht; cases ht
  | cons a ts ih =>
      intro t ht
      simp only [step1] at ht
      cases hx : check_exit h l (lifecycle_update h l c a) with
      | none =>
          rw [hx] at ht
          rcases List.mem_cons.mp ht with hEq | hTail
          · exact ⟨a, List.mem_cons_self _ _, hEq⟩
          · obtain ⟨u, hu, he⟩ := ih t hTail
            exact ⟨u, List.mem_cons_of_mem _ hu, he⟩
      | some pr =>
          rw [hx] at ht
          obtain ⟨u, hu, he⟩ := ih t ht
          exact ⟨u, List.mem_cons_of_mem _ hu, he⟩

theorem step1_mem_snd (cfg : Config) (dt : ℚ) (bi : Nat) (h l c : ℚ)
    (ts : List Trade) :
    ∀ t ∈ (step1 cfg dt bi h l c ts).2, ∃ u ∈ ts, ∃ px r,
      t = close_trade cfg (lifecycle_update h l c u) px dt bi r := by
  induction ts with
  | nil => intro t ht; cases ht
  | cons a ts ih =>
      intro t ht
      simp only [step1] at ht
      cases hx : check_exit h l (lifecycle_update h l c a) with
      | none =>
          rw [hx] at ht
          obtain ⟨u, hu, he⟩ := ih t ht
          exact ⟨u, List.mem_cons_of_mem _ hu, he⟩
      | some pr =>
          rw [hx] at ht
          rcases List.mem_cons.mp ht with hEq | hTail
          · exact ⟨a, List.mem_cons_self _ _, pr.1, pr.2, hEq⟩
          · obtain ⟨u, hu, he⟩ := ih t hTail
            exact ⟨u, List.mem_cons_of_mem _ hu, he⟩

theorem process_bar_mem_open (cfg : Config) (st : BTState) (k : Nat) (bar : Row) :
    ∀ t ∈ (process_bar cfg st k bar).open_trades,
      (∃ u ∈ st.open_trades, t = lifecycle_update bar.high bar.low bar.close u) ∨
      open_trade_from_row cfg st.trade_id bar.datetime bar.close bar k = some t := by
  intro t ht
  simp only [process_bar] at ht
  split at ht
  · cases hnt : open_trade_from_row cfg st.trade_id bar.datetime bar.close bar k with
    | none => rw [hnt] at ht; cases ht
    | some nt =>
        rw [hnt] at ht
        simp only [List.mem_singleton] at ht
        exact Or.inr (by rw [ht])
  · split at ht
    · split at ht
      · exact Or.inl (step1_mem_fst cfg bar.datetime k bar.high bar.low bar.close st.open_trades t ht)
      · cases hnt : open_trade_from_row cfg st.trade_id bar.datetime bar.close bar k with
        | none =>
            rw [hnt] at ht
            exact Or.inl (step1_mem_fst cfg bar.datetime k bar.high bar.low bar.close st.open_trades t ht)
        | some nt =>
            rw [hnt] at ht
            rcases List.mem_append.mp ht with hL | hR
            · exact Or.inl (step1_mem_fst cfg bar.datetime k bar.high bar.low bar.close st.open_trades t hL)
            · simp only [List.mem_singleton] at hR
              exact Or.inr (by rw [hR])
    · exact Or.inl (step1_mem_fst cfg bar.datetime k bar.high bar.low bar.close st.open_trades t ht)

theorem process_bar_mem_closed (cfg : Config) (st : BTState) (k : Nat) (bar : Row) :
    ∀ t ∈ (process_bar cfg st k bar).closed_trades,
      t ∈ st.closed_trades ∨
      ∃ u ∈ st.open_trades, ∃ px r,
        t = close_trade cfg (lifecycle_update bar.high bar.low bar.close u) px bar.datetime k r := by
  intro t ht
  have base : t ∈ st.closed_trades ++ (step1 cfg bar.datetime k bar.high bar.low bar.close st.open_trades).2 →
      t ∈ st.closed_trades ∨ ∃ u ∈ st.open_trades, ∃ px r,
        t = close_trade cfg (lifecycle_update bar.high bar.low bar.close u) px bar.datetime k r := by
    intro hb
    rcases List.mem_append.mp hb with hL | hR
    · exact Or.inl hL
    · exact Or.inr (step1_mem_snd cfg bar.datetime k bar.high bar.low bar.close st.open_trades t hR)
  have sigCase : t ∈ (step1 cfg bar.datetime k bar.high bar.low bar.close st.open_trades).1.map
      (fun u => close_trade cfg u bar.close bar.datetime k "signal") →
      ∃ u ∈ st.open_trades, ∃ px r,
        t = close_trade cfg (lifecycle_update bar.high bar.low bar.close u) px bar.datetime k r := by
    intro hm
    obtain ⟨v, hv, he⟩ := List.mem_map.mp hm
    obtain ⟨u, hu, hv2⟩ := step1_mem_fst cfg bar.datetime k bar.high bar.low bar.close st.open_trades v hv
    exact ⟨u, hu, bar.close, "signal", by rw [← he, hv2]⟩
  simp only [process_bar] at ht
  split at ht
  · cases hnt : open_trade_from_row cfg st.trade_id bar.datetime bar.close bar k with
    | none =>
        rw [hnt] at ht
        simp only at ht
        rcases List.mem_append.mp ht with hL | hR
        · exact base hL
        · exact Or.inr (sigCase hR)
    | some nt =>
        rw [hnt] at ht
        simp only at ht
        rcases List.mem_append.mp ht with hL | hR
        · exact base hL
        · exact Or.inr (sigCase hR)
  · split at ht
    · split at ht
      · exact base ht
      · cases hnt : open_trade_from_row cfg st.trade_id bar.datetime bar.close bar k with
        | none => rw [hnt] at ht; exact base ht
        | some nt => rw [hnt] at ht; exact base ht
    · exact base ht

theorem close_trade_pnl_ok (cfg : Config) (t : Trade) (px dtx : ℚ) (bix : Nat) (r : String) :
    PnlOk (close_trade cfg t px dtx bix r) := by
  refine ⟨px * (1 - dir_factor t.direction * cfg.slippage), rfl, ?_⟩
  show some ((px * (1 - dir_factor t.direction * cfg.slippage) - t.entry_price) * t.size *
      dir_factor t.direction - t.commission_open -
      cfg.commission_perc * (px * (1 - dir_factor t.direction * cfg.slippage)) * t.size) =
    some (claimed_gross t.direction t.entry_price
      (px * (1 - dir_factor t.direction * cfg.slippage)) t.size - t.commission_open -
      cfg.commission_perc * (px * (1 - dir_factor t.direction * cfg.slippage)) * t.size)
  congr 1
  unfold claimed_gross
  cases hd : t.direction <;> simp [dir_factor] <;> ring_nf

theorem run_loop_closed_pnl_ok (cfg : Config) (l : List Row) : ∀ (k : Nat) (st : BTState),
    (∀ t ∈ st.closed_trades, PnlOk t) →
    ∀ t ∈ (run_loop cfg k st l).closed_trades, PnlOk t := by
  induction l with
  | nil => intro k st h t ht; exact h t ht
  | cons bar rest ih =>
      intro k st h
      show ∀ t ∈ (run_loop cfg (k+1) (process_bar cfg st k bar) rest).closed_trades, PnlOk t
      apply ih (k+1)
      intro t ht
      rcases process_bar_mem_closed cfg st k bar t ht with hL | ⟨u, _, px, r, he⟩
      · exact h t hL
      · rw [he]; exact close_trade_pnl_ok cfg _ px bar.datetime k r

theorem lifecycle_update_exc_ok (h l c : ℚ) (t : Trade) (ht : ExcOk t) :
    ExcOk (lifecycle_update h l c t) := by
  constructor
  · exact le_trans ht.1 (le_max_left _ _)
  · exact le_trans (min_le_left _ _) ht.2

theorem open_trade_some_exc_ok (cfg : Config) (tid : Nat) (dt price : ℚ) (row : Row)
    (bi : Nat) (t : Trade) (h : open_trade_from_row cfg tid dt price row bi = some t) :
    ExcOk t := by
  obtain ⟨-, -, hf, ha⟩ := open_trade_some_fields cfg tid dt price row bi t h
  exact ⟨le_of_eq hf.symm, le_of_eq ha⟩

theorem close_trade_exc_ok (cfg : Config) (t : Trade) (px dtx : ℚ) (bix : Nat)
    (r : String) (ht : ExcOk t) : ExcOk (close_trade cfg t px dtx bix r) := ht

theorem process_bar_exc (cfg : Config) (st : BTState) (k : Nat) (bar : Row)
    (h : StExc st) : StExc (process_bar cfg st k bar) := by
  constructor
  · intro t ht
    rcases process_bar_mem_open cfg st k bar t ht with ⟨u, hu, he⟩ | hnew
    · rw [he]; exact lifecycle_update_exc_ok _ _ _ u (h.1 u hu)
    · exact open_trade_some_exc_ok cfg st.trade_id bar.datetime bar.close bar k t hnew
  · intro t ht
    rcases process_bar_mem_closed cfg st k bar t ht with hL | ⟨u, hu, px, r, he⟩
    · exact h.2 t hL
    · rw [he]
      exact close_trade_exc_ok cfg _ px bar.datetime k r
        (lifecycle_update_exc_ok _ _ _ u (h.1 u hu))

theorem run_loop_exc (cfg : Config) (l : List Row) : ∀ (k : Nat) (st : BTState),
    StExc st → StExc (run_loop cfg k st l) := by
  induction l with
  | nil => intro k st h; exact h
  | cons bar rest ih =>
      intro k st h
      exact ih (k+1) (process_bar cfg st k bar) (process_bar_exc cfg st k bar h)

theorem step1_fst_length (cfg : Config) (dt : ℚ) (bi : Nat) (h l c : ℚ)
    (ts : List Trade) : (step1 cfg dt bi h l c ts).1.length ≤ ts.length := by
  induction ts with
  | nil => exact Nat.le_refl 0
  | cons a ts ih =>
      simp only [step1]
      cases hx : check_exit h l (lifecycle_update h l c a) with
      | none => simpa using Nat.succ_le_succ ih
      | some pr => simpa using Nat.le_succ_of_le ih

theorem process_bar_open_le_one (cfg : Config) (st : BTState) (k : Nat) (bar : Row)
    (hm : cfg.single_position_mode = true)
    (h : st.open_trades.length ≤ 1) :
    (process_bar cfg st k bar).open_trades.length ≤ 1 := by
  have hs1 : (step1 cfg bar.datetime k bar.high bar.low bar.close st.open_trades).1.length ≤ 1 :=
    le_trans (step1_fst_length cfg bar.datetime k bar.high bar.low bar.close st.open_trades) h
  simp only [process_bar]
  split
  · cases hnt : open_trade_from_row cfg st.trade_id bar.datetime bar.close bar k <;> simp
  · split
    · split
      · exact hs1
      · cases hnt : open_trade_from_row cfg st.trade_id bar.datetime bar.close bar k with
        | none => exact hs1
        | some nt =>
            rename_i hno hsig hcond
            have hempty : (step1 cfg bar.datetime k bar.high bar.low bar.close st.open_trades).1 = [] := by
              by_contra hne
              exact hcond ⟨hm, hne⟩
            simp [hempty]
    · exact hs1

theorem run_loop_open_le_one (cfg : Config) (l : List Row)
    (hm : cfg.single_position_mode = true) : ∀ (k : Nat) (st : BTState),
    st.open_trades.length ≤ 1 → (run_loop cfg k st l).open_trades.length ≤ 1 := by
  induction l with
  | nil => intro k st h; exact h
  | cons bar rest ih =>
      intro k st h
      exact ih (k+1) (process_bar cfg st k bar) (process_bar_open_le_one cfg st k bar hm h)

theorem process_bar_stbar (cfg : Config) (st : BTState) (k : Nat) (bar : Row)
    (h : StBar k st) : StBar (k + 1) (process_bar cfg st k bar) := by
  constructor
  · intro t ht
    rcases process_bar_mem_open cfg st k bar t ht with ⟨u, hu, he⟩ | hnew
    · have hlt := (h.1 u hu).1
      rw [he]
      exact ⟨by simpa using Nat.lt_succ_of_lt hlt, fun hEq => by
        simp only [lifecycle_update_entry_bar] at hEq; omega⟩
    · obtain ⟨-, hbi, hf, ha⟩ := open_trade_some_fields cfg st.trade_id bar.datetime
        bar.close bar k t hnew
      exact ⟨by omega, fun _ => ⟨hf, ha⟩⟩
  · intro t ht
    rcases process_bar_mem_closed cfg st k bar t ht with hL | ⟨u, hu, px, r, he⟩
    · exact h.2 t hL
    · have hlt := (h.1 u hu).1
      rw [he]
      exact ⟨k, rfl, by simpa using hlt⟩

theorem run_loop_stbar (cfg : Config) (l : List Row) : ∀ (k : Nat) (st : BTState),
    StBar k st → StBar (k + l.length) (run_loop cfg k st l) := by
  induction l with
  | nil => intro k st h; simpa using h
  | cons bar rest ih =>
      intro k st h
      have := ih (k+1) (process_bar cfg st k bar) (process_bar_stbar cfg st k bar h)
      simpa [Nat.add_comm, Nat.add_assoc, Nat.add_left_comm] using this

theorem idCount_append (k : Nat) (l1 l2 : List Trade) :
    idCount k (l1 ++ l2) = idCount k l1 + idCount k l2 := List.countP_append _ _ _

theorem idCount_map_close (k : Nat) (cfg : Config) (l : List Trade) (px dtx : ℚ)
    (bix : Nat) (r : String) :
    idCount k (l.map (fun t => close_trade cfg t px dtx bix r)) = idCount k l := by
  unfold idCount
  rw [List.countP_map]
  rfl

theorem idCount_cons (k : Nat) (t : Trade) (l : List Trade) :
    idCount k (t :: l) = (if t.id == k then 1 else 0) + idCount k l := by
  unfold idCount
  rw [List.countP_cons]
  rcases Bool.eq_false_or_eq_true (t.id == k) with hb | hb <;> simp [hb, Nat.add_comm]

theorem step1_idCount (cfg : Config) (dt : ℚ) (bi : Nat) (h l c : ℚ) (k : Nat)
    (ts : List Trade) :
    idCount k (step1 cfg dt bi h l c ts).1 + idCount k (step1 cfg dt bi h l c ts).2 =
      idCount k ts := by
  induction ts with
  | nil => rfl
  | cons a ts ih =>
      simp only [step1]
      cases hx : check_exit h l (lifecycle_update h l c a) with
      | none =>
          simp only [idCount_cons]
          have hid : (lifecycle_update h l c a).id = a.id := rfl
          rw [hid]
          omega
      | some pr =>
          simp only [idCount_cons]
          have hid : (close_trade cfg (lifecycle_update h l c a) pr.1 dt bi pr.2).id = a.id := rfl
          rw [hid]
          omega

theorem idCount_new_total (cl a b tid k : Nat)
    (hold : cl + (b + a) = if k < tid then 1 else 0) :
    cl + a + b + (if (tid == k) = true then 1 else 0) =
      if k < tid + 1 then 1 else 0 := by
  by_cases hk : k = tid
  · subst hk
    simp only [beq_self_eq_true, if_true]
    rw [if_neg (Nat.lt_irrefl _)] at hold
    rw [if_pos (Nat.lt_succ_self _)]
    omega
  · have hb : (tid == k) = false := beq_eq_false_iff_ne.mpr (Ne.symm hk)
    rw [hb]
    simp only [Bool.false_eq_true, if_false]
    have heq : (if k < tid + 1 then 1 else 0 : Nat) = if k < tid then 1 else 0 := by
      split_ifs <;> omega
    rw [heq, ← hold]
    omega

theorem process_bar_stid (cfg : Config) (st : BTState) (i : Nat) (bar : Row)
    (h : StId st) : StId (process_bar cfg st i bar) := by
  intro k
  have hstep := step1_idCount cfg bar.datetime i bar.high bar.low bar.close k st.open_trades
  have hold := h k
  rw [idCount_append] at hold
  simp only [process_bar]
  split
  · cases hnt : open_trade_from_row cfg st.trade_id bar.datetime bar.close bar i with
    | none =>
        rename_i hcond
        exact absurd hnt (open_trade_from_row_ne_none cfg st.trade_id bar.datetime
          bar.close bar i hcond.2.1)
    | some nt =>
        have hntid : nt.id = st.trade_id :=
          (open_trade_some_fields cfg st.trade_id bar.datetime bar.close bar i nt hnt).1
        show idCount k ((st.closed_trades ++ _ ++ _) ++ [nt]) =
          if k < st.trade_id + 1 then 1 else 0
        rw [idCount_append, idCount_append, idCount_append, idCount_map_close]
        have hcnt : idCount k [nt] = if nt.id == k then 1 else 0 := by
          rw [idCount_cons]
          rfl
        rw [hcnt, hntid]
        rw [← hstep] at hold
        exact idCount_new_total _ _ _ _ _ (by omega)
  · split
    · split
      · show idCount k (st.closed_trades ++ _ ++ _) =
          if k < st.trade_id then 1 else 0
        dsimp only
        rw [idCount_append, idCount_append]
        omega
      · cases hnt : open_trade_from_row cfg st.trade_id bar.datetime bar.close bar i with
        | none =>
            show idCount k (st.closed_trades ++ _ ++ _) =
              if k < st.trade_id then 1 else 0
            dsimp only
            rw [idCount_append, idCount_append]
            omega
        | some nt =>
            have hntid : nt.id = st.trade_id :=
              (open_trade_some_fields cfg st.trade_id bar.datetime bar.close bar i nt hnt).1
            show idCount k (st.closed_trades ++ _ ++ (_ ++ [nt])) =
              if k < st.trade_id + 1 then 1 else 0
            rw [idCount_append, idCount_append, idCount_append]
            have hcnt : idCount k [nt] = if nt.id == k then 1 else 0 := by
              rw [idCount_cons]
              rfl
            rw [hcnt, hntid, ← Nat.add_assoc]
            rw [← hstep] at hold
            exact idCount_new_total _ _ _ _ _ (by omega)
    · show idCount k (st.closed_trades ++ _ ++ _) =
        if k < st.trade_id then 1 else 0
      dsimp only
      rw [idCount_append, idCount_append]
      omega

theorem run_loop_stid (cfg : Config) (l : List Row) : ∀ (k : Nat) (st : BTState),
    StId st → StId (run_loop cfg k st l) := by
  induction l with
  | nil => intro k st h; exact h
  | cons bar rest ih =>
      intro k st h
      exact ih (k+1) (process_bar cfg st k bar) (process_bar_stid cfg st k bar h)

theorem run_idCount (cfg : Config) (bars : List Row) (k : Nat) :
    idCount k (run cfg bars) =
      if k < (run_loop cfg 0 initState bars).trade_id then 1 else 0 := by
  have hst := run_loop_stid cfg bars 0 initState (fun k => rfl) k
  rw [idCount_append] at hst
  simp only [run]
  split
  · rename_i hopen
    rw [hopen] at hst
    simpa using hst
  · split
    · rw [idCount_append, idCount_map_close]
      exact hst
    · rename_i hne hx hlast
      have hb : bars = [] := List.getLast?_eq_none_iff.mp hlast
      subst hb
      exact absurd rfl hne

theorem run_eod_mem (cfg : Config) (bars : List Row) (t : Trade)
    (ht : t ∈ (run_loop cfg 0 initState bars).open_trades) :
    ∃ last, bars.getLast? = some last ∧
      close_trade cfg t last.close last.datetime (bars.length - 1) "eod" ∈ run cfg bars := by
  have hne : (run_loop cfg 0 initState bars).open_trades ≠ [] := by
    intro hEq
    rw [hEq] at ht
    cases ht
  have hbne : bars ≠ [] := by
    intro hb
    subst hb
    exact hne rfl
  obtain ⟨last, hlast⟩ : ∃ last, bars.getLast? = some last := by
    cases hb : bars with
    | nil => exact absurd hb hbne
    | cons b bs =>
        exact ⟨(b :: bs).getLast (by simp), List.getLast?_eq_getLast (b :: bs) (by simp)⟩
  refine ⟨last, hlast, ?_⟩
  simp only [run, if_neg hne, hlast]
  exact List.mem_append_right _ (List.mem_map_of_mem _ ht)

theorem idCount_pos_of_mem (k : Nat) (t : Trade) (l : List Trade)
    (ht : t ∈ l) (hk : t.id = k) : 0 < idCount k l := by
  unfold idCount
  rw [List.countP_pos_iff]
  exact ⟨t, ht, by simp [hk]⟩

/-- Claim C1: every ClosedTrade in the ledger produced by the run records a net pnl equal to gross P&L minus commission_open minus commission_close, where gross P&L is (exit − entry) × size for a long trade and (entry − exit) × size for a short trade, with entry and exit the post-slippage prices stored on the record. -/
theorem pnl_reconciliation (cfg : Config) (bars : List Row) :
    ∀ t ∈ run cfg bars, ∃ ep, t.exit_price = some ep ∧
      t.pnl = some (claimed_gross t.direction t.entry_price ep t.size -
        t.commission_open - t.commission_close) := by
  intro t ht
  have hcl := run_loop_closed_pnl_ok cfg bars 0 initState (by intro x hx; cases hx)
  simp only [run] at ht
  split at ht
  · exact hcl t ht
  · split at ht
    · rcases List.mem_append.mp ht with hL | hR
      · exact hcl t hL
      · obtain ⟨u, _, he⟩ := List.mem_map.mp hR
        rw [← he]
        exact close_trade_pnl_ok cfg u _ _ _ _
    · exact hcl t ht

/-- Witness for claim C1 at the two-bar demo run. -/
theorem pnl_reconciliation_witness :
    ∃ t ∈ run demoCfg demoBars, ∃ ep, t.exit_price = some ep ∧
      t.pnl = some (claimed_gross t.direction t.entry_price ep t.size -
        t.commission_open - t.commission_close) := by
  have h0 : run demoCfg demoBars ≠ [] := by decide
  exact ⟨_, List.head_mem h0, pnl_reconciliation demoCfg demoBars _ (List.head_mem h0)⟩

/-- Claim C2: under single-position mode, after processing any prefix of the bar sequence (hence before and after every bar) at most one trade is open. -/
theorem single_position_invariant (cfg : Config) (bars : List Row)
    (hm : cfg.single_position_mode = true) (i : Nat) :
    (run_loop cfg 0 initState (bars.take i)).open_trades.length ≤ 1 :=
  run_loop_open_le_one cfg (bars.take i) hm 0 initState (Nat.zero_le 1)

/-- Witness for claim C2 at the two-bar demo run. -/
theorem single_position_invariant_witness :
    demoCfg.single_position_mode = true ∧
    (run_loop demoCfg 0 initState (demoBars.take 2)).open_trades.length ≤ 1 :=
  ⟨rfl, single_position_invariant demoCfg demoBars rfl 2⟩

/-- Claim C3: when, on a bar, an open trade satisfies both its stop trigger and its take-profit trigger, the exit decision is the stop: the trade is closed into the bar ledger with reason "sl" at the stop price, never with reason "tp". -/
theorem stop_priority_tiebreak (cfg : Config) (dt : ℚ) (bi : Nat) (h l c : ℚ)
    (ts : List Trade) (t : Trade) (hmem : t ∈ ts)
    (hsl : hit_sl h l (lifecycle_update h l c t) = true)
    (htp : hit_tp h l (lifecycle_update h l c t) = true) :
    ∃ sp, (lifecycle_update h l c t).stop_price = some sp ∧
      check_exit h l (lifecycle_update h l c t) = some (sp, "sl") ∧
      close_trade cfg (lifecycle_update h l c t) sp dt bi "sl" ∈
        (step1 cfg dt bi h l c ts).2 := by
  obtain ⟨sp, hs, hce⟩ := check_exit_sl_priority h l (lifecycle_update h l c t) hsl
  exact ⟨sp, hs, hce, step1_closes_mem cfg dt bi h l c ts t hmem sp "sl" hce⟩

/-- Witness for claim C3: a long trade with stop 95 and target 105 on a bar with low 94 and high 106 closes as "sl". -/
theorem stop_priority_tiebreak_witness :
    hit_sl 106 94 (lifecycle_update 106 94 100 tDemo) = true ∧
    hit_tp 106 94 (lifecycle_update 106 94 100 tDemo) = true ∧
    ∃ sp, (lifecycle_update 106 94 100 tDemo).stop_price = some sp ∧
      check_exit 106 94 (lifecycle_update 106 94 100 tDemo) = some (sp, "sl") ∧
      close_trade demoCfg (lifecycle_update 106 94 100 tDemo) sp 1 1 "sl" ∈
        (step1 demoCfg 1 1 106 94 100 [tDemo]).2 :=
  ⟨by decide, by decide,
   stop_priority_tiebreak demoCfg 1 1 106 94 100 [tDemo] tDemo
     (List.mem_singleton.mpr rfl) (by decide) (by decide)⟩

/-- Claim C4: every trade still open after the last bar appears in the returned ledger as exactly one ClosedTrade, closed with reason "eod" at the last bar index, with exit time and pre-slippage exit price taken from the last bar; and every id ever assigned occurs exactly once in the ledger, so every trade opened yields exactly one ClosedTrade. -/
theorem eod_forced_closure (cfg : Config) (bars : List Row) :
    (∀ t ∈ (run_loop cfg 0 initState bars).open_trades,
      ∃ last, bars.getLast? = some last ∧
        close_trade cfg t last.close last.datetime (bars.length - 1) "eod" ∈ run cfg bars ∧
        (close_trade cfg t last.close last.datetime (bars.length - 1) "eod").exit_reason =
          some "eod" ∧
        (close_trade cfg t last.close last.datetime (bars.length - 1) "eod").exit_bar_index =
          some (bars.length - 1) ∧
        idCount t.id (run cfg bars) = 1) ∧
    (∀ k, idCount k (run cfg bars) =
      if k < (run_loop cfg 0 initState bars).trade_id then 1 else 0) := by
  refine ⟨?_, run_idCount cfg bars⟩
  intro t ht
  obtain ⟨last, hlast, hmem⟩ := run_eod_mem cfg bars t ht
  refine ⟨last, hlast, hmem, rfl, rfl, ?_⟩
  have hcount := run_idCount cfg bars t.id
  have hpos : 0 < idCount t.id (run cfg bars) := by
    apply idCount_pos_of_mem t.id _ _ hmem
    rfl
  have hlt : t.id < (run_loop cfg 0 initState bars).trade_id := by
    by_contra hge
    rw [hcount, if_neg hge] at hpos
    exact absurd hpos (by omega)
  rw [hcount, if_pos hlt]

/-- Witness for claim C4 at the two-bar demo run, whose trade is still open at the end. -/
theorem eod_forced_closure_witness :
    ∃ t ∈ (run_loop demoCfg 0 initState demoBars).open_trades,
      ∃ last, demoBars.getLast? = some last ∧
        close_trade demoCfg t last.close last.datetime (demoBars.length - 1) "eod" ∈
          run demoCfg demoBars ∧
        (close_trade demoCfg t last.close last.datetime (demoBars.length - 1) "eod").exit_reason =
          some "eod" ∧
        (close_trade demoCfg t last.close last.datetime (demoBars.length - 1) "eod").exit_bar_index =
          some (demoBars.length - 1) ∧
        idCount t.id (run demoCfg demoBars) = 1 := by
  have h0 : (run_loop demoCfg 0 initState demoBars).open_trades ≠ [] := by decide
  exact ⟨_, List.head_mem h0, (eod_forced_closure demoCfg demoBars).1 _ (List.head_mem h0)⟩

/-- Claim C5: for a trade with a configured trailing distance, each bar update moves the stop only in the favorable direction — the stop sequence over successive bars is non-decreasing for a long trade and non-increasing for a short trade — and when no stop exists yet the candidate close ∓ distance becomes the initial stop. -/
theorem trailing_stop_monotone (h l c : ℚ) (t : Trade) (d : ℚ)
    (hd : t.trailing_distance = some d) :
    (t.stop_price = none →
       (lifecycle_update h l c t).stop_price =
         some (if t.direction = .long then c - d else c + d)) ∧
    (∀ sp, t.stop_price = some sp →
       ∃ sq, (lifecycle_update h l c t).stop_price = some sq ∧
         (t.direction = .long → sp ≤ sq) ∧ (t.direction = .short → sq ≤ sp)) ∧
    (∀ bs : List (ℚ × ℚ × ℚ), ∀ sp, t.stop_price = some sp →
       ∃ sq, (update_seq bs t).stop_price = some sq ∧
         (t.direction = .long → sp ≤ sq) ∧ (t.direction = .short → sq ≤ sp)) := by
  refine ⟨fun hsp => lifecycle_update_stop_init h l c t d hd hsp, ?_, ?_⟩
  · intro sp hsp
    exact update_seq_stop_mono [(h, l, c)] t d sp hd hsp
  · intro bs sp hsp
    exact update_seq_stop_mono bs t d sp hd hsp

/-- Witness for claim C5: the first ratchet of a stop-less long trailing trade installs close − distance. -/
theorem trailing_stop_monotone_witness :
    (lifecycle_update 101 99 100 tTrailN).stop_price =
      some (if tTrailN.direction = .long then 100 - 2 else 100 + 2) :=
  (trailing_stop_monotone 101 99 100 tTrailN 2 rfl).1 rfl

/-- Counterexample to claim C6 as stated: with 10 percent slippage, a long entry at close 100 with stop 95 records risk 5 = |100 − 95| × size, but |entry_price − stop| × size = |110 − 95| × 1 = 15, so the recorded risk is not computed from the slippage-adjusted entry price. -/
theorem risk_inference_cex :
    ∃ t, open_trade_from_row cexCfg 0 0 100 cexRow 0 = some t ∧
      t.risk = some 5 ∧ t.entry_price = 110 ∧ t.size = 1 ∧ t.stop_price = some 95 ∧
      t.risk ≠ some (|t.entry_price - 95| * t.size) := by
  refine ⟨_, open_trade_eq cexCfg 0 0 100 cexRow 0 (by decide), ?_, ?_, ?_, ?_, ?_⟩ <;>
    simp [cexRow, cexCfg, dir_factor] <;> norm_num

/-- Claim C6 as amended: when no risk is supplied and a stop price exists, the risk recorded at open is |price − stop_price| × size where price is the pre-slippage signal price (the bar close), not the slippage-adjusted entry price; the two agree only when slippage is zero. -/
theorem risk_inferred_from_raw_price (cfg : Config) (tid : Nat) (dt price : ℚ)
    (row : Row) (bi : Nat) (sp : ℚ) (h0 : row.signal ≠ 0)
    (hr : row.risk = none) (hs : row.stop_price = some sp) :
    ∃ t, open_trade_from_row cfg tid dt price row bi = some t ∧
      t.risk = some (|price - sp| * row.size.getD 1) := by
  refine ⟨_, open_trade_eq cfg tid dt price row bi h0, ?_⟩
  simp [hr, hs]

/-- Witness for the amended claim C6 at the 10-percent-slippage input. -/
theorem risk_inferred_from_raw_price_witness :
    ∃ t, open_trade_from_row cexCfg 0 0 100 cexRow 0 = some t ∧
      t.risk = some (|(100:ℚ) - 95| * cexRow.size.getD 1) :=
  risk_inferred_from_raw_price cexCfg 0 0 100 cexRow 0 95 (by decide) rfl rfl

/-- Claim C7: a trade opened on a positive signal records entry price close × (1 + slippage), one opened on a negative signal records close × (1 − slippage), and in both cases commission_open = commission_perc × entry_price × size. -/
theorem entry_slippage_commission (cfg : Config) (tid : Nat) (dt price : ℚ)
    (row : Row) (bi : Nat) :
    (0 < row.signal → ∃ t, open_trade_from_row cfg tid dt price row bi = some t ∧
       t.entry_price = price * (1 + cfg.slippage) ∧
       t.commission_open = cfg.commission_perc * t.entry_price * t.size) ∧
    (row.signal < 0 → ∃ t, open_trade_from_row cfg tid dt price row bi = some t ∧
       t.entry_price = price * (1 - cfg.slippage) ∧
       t.commission_open = cfg.commission_perc * t.entry_price * t.size) := by
  constructor
  · intro hs
    refine ⟨_, open_trade_eq cfg tid dt price row bi (by omega), ?_, ?_⟩
    · simp [hs, dir_factor]
    · rfl
  · intro hs
    have hng : ¬ row.signal > 0 := by omega
    refine ⟨_, open_trade_eq cfg tid dt price row bi (by omega), ?_, rfl⟩
    simp only [hng, if_false, dir_factor]
    ring

/-- Witness for claim C7 at scenario D of the spec: commission 0.001, slippage 0.0005, long entry at 100. -/
theorem entry_slippage_commission_witness :
    ∃ t, open_trade_from_row scenCfg 0 0 100 scenRow 0 = some t ∧
      t.entry_price = 100 * (1 + scenCfg.slippage) ∧
      t.commission_open = scenCfg.commission_perc * t.entry_price * t.size :=
  (entry_slippage_commission scenCfg 0 0 100 scenRow 0).1 (by decide)

/-- Counterexample to claim C8 as stated: a price frame with a timestamp column but no OHLC columns, paired with an empty signal series, runs to completion and returns an empty ledger — no error of any kind is raised, and the repository defines no InputError. -/
theorem missing_ohlc_no_error :
    ("open" ∉ noOhlcFrame.cols ∧ "high" ∉ noOhlcFrame.cols ∧
     "low" ∉ noOhlcFrame.cols ∧ "close" ∉ noOhlcFrame.cols ∧
     noOhlcFrame.rows.length = 1) ∧
    simulate {} noOhlcFrame [] = Except.ok [] := by
  exact ⟨by decide, rfl⟩

/-- Claim C8 as amended: a missing timestamp column fails with a pandas KeyError at construction, before any bar; with an empty signal series the run returns an empty ledger whatever columns are missing; and with a nonempty signal series and at least one price row, any missing OHLC column fails with an AttributeError naming the first missing field in the loop's read order (open, high, low, close) — in every failing case no partial ledger is produced. -/
theorem missing_columns_behavior :
    (∀ (cfg : Config) (df : RawFrame) (signals : List SigRow),
      "datetime" ∉ df.cols →
      simulate cfg df signals = Except.error (PdError.keyError "datetime")) ∧
    (∀ (cfg : Config) (df : RawFrame), "datetime" ∈ df.cols →
      simulate cfg df [] = Except.ok []) ∧
    (∀ (cfg : Config) (df : RawFrame) (signals : List SigRow) (f : String),
      "datetime" ∈ df.cols → firstMissingOhlc df = some f →
      signals ≠ [] → df.rows ≠ [] →
      simulate cfg df signals = Except.error (PdError.attributeError f)) := by
  refine ⟨?_, ?_, ?_⟩
  · intro cfg df signals hdt
    simp only [simulate, bt_init, if_neg hdt]
    rfl
  · intro cfg df hdt
    simp only [simulate, bt_init, if_pos hdt]
    rfl
  · intro cfg df signals f hdt hf hsig hrows
    have hie : signals.isEmpty = false := by
      cases signals with
      | nil => exact absurd rfl hsig
      | cons a l => rfl
    cases hr : df.rows with
    | nil => exact absurd hr hrows
    | cons r rs =>
        simp only [simulate, bt_init, if_pos hdt]
        show run_raw cfg df signals = _
        simp only [run_raw, hie, Bool.false_eq_true, if_false, hr, mapExcept]
        by_cases ho : "open" ∈ df.cols
        · by_cases hh : "high" ∈ df.cols
          · by_cases hl : "low" ∈ df.cols
            · by_cases hc : "close" ∈ df.cols
              · exfalso
                simp [firstMissingOhlc, ho, hh, hl, hc] at hf
              · obtain rfl : f = "close" := by
                  simp only [firstMissingOhlc, if_pos ho, if_pos hh, if_pos hl,
                    if_neg hc, Option.some.injEq] at hf
                  exact hf.symm
                simp only [mergeRow, getVal, if_pos ho, if_pos hh, if_pos hl, if_neg hc]
                rfl
            · obtain rfl : f = "low" := by
                simp only [firstMissingOhlc, if_pos ho, if_pos hh, if_neg hl,
                  Option.some.injEq] at hf
                exact hf.symm
              simp only [mergeRow, getVal, if_pos ho, if_pos hh, if_neg hl]
              rfl
          · obtain rfl : f = "high" := by
              simp only [firstMissingOhlc, if_pos ho, if_neg hh, Option.some.injEq] at hf
              exact hf.symm
            simp only [mergeRow, getVal, if_pos ho, if_neg hh]
            rfl
        · obtain rfl : f = "open" := by
            simp only [firstMissingOhlc, if_neg ho, Option.some.injEq] at hf
            exact hf.symm
          simp only [mergeRow, getVal, if_neg ho]
          rfl

/-- Witness for the amended claim C8 at four concrete frames: no columns at all, a frame missing every OHLC column (error names open, the first read), and a frame missing only close. -/
theorem missing_columns_behavior_witness :
    simulate {} emptyFrame [] = Except.error (PdError.keyError "datetime") ∧
    simulate {} noOhlcFrame [] = Except.ok [] ∧
    simulate {} noOhlcFrame [sigDemo] = Except.error (PdError.attributeError "open") ∧
    simulate {} noCloseFrame [sigDemo] = Except.error (PdError.attributeError "close") :=
  ⟨missing_columns_behavior.1 {} emptyFrame [] (by decide),
   missing_columns_behavior.2.1 {} noOhlcFrame (by decide),
   missing_columns_behavior.2.2 {} noOhlcFrame [sigDemo] "open" (by decide) (by decide)
     (by decide) (List.cons_ne_nil _ _),
   missing_columns_behavior.2.2 {} noCloseFrame [sigDemo] "close" (by decide) (by decide)
     (by decide) (List.cons_ne_nil _ _)⟩

/-- Claim C9: a trade never exits on a bar before its entry bar, and the only way it can exit on its own entry bar is the end-of-data forced closure on the final bar — in which case it was never lifecycle-updated, so a stop or target already breached by the entry bar itself cannot close the trade on that bar. -/
theorem entry_bar_no_update (cfg : Config) (bars : List Row) :
    ∀ t ∈ run cfg bars, ∃ j, t.exit_bar_index = some j ∧ t.entry_bar_index ≤ j ∧
      (t.entry_bar_index = j →
        t.exit_reason = some "eod" ∧ j = bars.length - 1 ∧
        t.max_favor = 0 ∧ t.max_adverse = 0) := by
  intro t ht
  have hinit : StBar 0 initState := ⟨fun x hx => absurd hx (by simp [initState]),
    fun x hx => absurd hx (by simp [initState])⟩
  have hst := run_loop_stbar cfg bars 0 initState hinit
  rw [Nat.zero_add] at hst
  simp only [run] at ht
  have fromClosed : t ∈ (run_loop cfg 0 initState bars).closed_trades →
      ∃ j, t.exit_bar_index = some j ∧ t.entry_bar_index ≤ j ∧
      (t.entry_bar_index = j →
        t.exit_reason = some "eod" ∧ j = bars.length - 1 ∧
        t.max_favor = 0 ∧ t.max_adverse = 0) := by
    intro hcl
    obtain ⟨j, hj, hlt⟩ := hst.2 t hcl
    exact ⟨j, hj, Nat.le_of_lt hlt, fun hEq => absurd hEq (Nat.ne_of_lt hlt)⟩
  split at ht
  · exact fromClosed ht
  · split at ht
    · rcases List.mem_append.mp ht with hL | hR
      · exact fromClosed hL
      · obtain ⟨u, hu, he⟩ := List.mem_map.mp hR
        have hou := hst.1 u hu
        have h1 : u.entry_bar_index < bars.length := hou.1
        refine ⟨bars.length - 1, by rw [← he]; simp, ?_, ?_⟩
        · rw [← he]
          simp only [close_trade_entry_bar]
          omega
        · intro hEq
          rw [← he] at hEq ⊢
          simp only [close_trade_entry_bar] at hEq
          have h0 := hou.2 (by omega)
          exact ⟨rfl, rfl, h0.1, h0.2⟩
    · exact fromClosed ht

/-- Witness for claim C9 at the two-bar demo run. -/
theorem entry_bar_no_update_witness :
    ∃ t ∈ run demoCfg demoBars, ∃ j, t.exit_bar_index = some j ∧
      t.entry_bar_index ≤ j ∧
      (t.entry_bar_index = j → t.exit_reason = some "eod" ∧ j = demoBars.length - 1 ∧
        t.max_favor = 0 ∧ t.max_adverse = 0) := by
  have h0 : run demoCfg demoBars ≠ [] := by decide
  exact ⟨_, List.head_mem h0, entry_bar_no_update demoCfg demoBars _ (List.head_mem h0)⟩

/-- Claim C10: for every trade, open or closed, after any prefix of the run and in the final ledger, max_favor ≥ 0 and max_adverse ≤ 0 — both start at zero and only widen. -/
theorem excursion_signs (cfg : Config) (bars : List Row) :
    (∀ i : Nat, ∀ t ∈ (run_loop cfg 0 initState (bars.take i)).open_trades ++
        (run_loop cfg 0 initState (bars.take i)).closed_trades,
      0 ≤ t.max_favor ∧ t.max_adverse ≤ 0) ∧
    (∀ t ∈ run cfg bars, 0 ≤ t.max_favor ∧ t.max_adverse ≤ 0) := by
  have hinit : StExc initState := ⟨fun t ht => absurd ht (by simp [initState]),
    fun t ht => absurd ht (by simp [initState])⟩
  constructor
  · intro i t ht
    have hst := run_loop_exc cfg (bars.take i) 0 initState hinit
    rcases List.mem_append.mp ht with hL | hR
    · exact hst.1 t hL
    · exact hst.2 t hR
  · intro t ht
    have hst := run_loop_exc cfg bars 0 initState hinit
    simp only [run] at ht
    split at ht
    · exact hst.2 t ht
    · split at ht
      · rcases List.mem_append.mp ht with hL | hR
        · exact hst.2 t hL
        · obtain ⟨u, hu, he⟩ := List.mem_map.mp hR
          rw [← he]
          exact close_trade_exc_ok cfg u _ _ _ _ (hst.1 u hu)
      · exact hst.2 t ht

/-- Witness for claim C10 at the two-bar demo run. -/
theorem excursion_signs_witness :
    ∃ t ∈ run demoCfg demoBars, 0 ≤ t.max_favor ∧ t.max_adverse ≤ 0 := by
  have h0 : run demoCfg demoBars ≠ [] := by decide
  exact ⟨_, List.head_mem h0, (excursion_signs demoCfg demoBars).2 _ (List.head_mem h0)⟩

end QuantCrypto
